import Mathlib

/-!
Shallow embedding of the bespoke per-frame logic of a small browser 3D
platformer (player-controlled cube over oscillating platforms).  The
repository has two near-duplicate variants of the player component: a
discrete-button variant (`src/App.tsx`) and an analog-joystick variant
(the unnamed source file).  Both share the ride resolver, the reset
check, the jump edge detection and the platform oscillator verbatim;
the embedding below follows the analog variant's `useFrame` body, with
the discrete variant's movement formula embedded separately for the
equivalence claim.  JS doubles are modelled as real numbers.
-/

namespace My3dGame

noncomputable section
open Classical

/-- Three-component world vector, used for positions and velocities. -/
structure Vec3 where
  x : ℝ
  y : ℝ
  z : ℝ

/-- JS `Math.round`: round to nearest, halves toward positive infinity,
which is exactly `⌊x + 1/2⌋`. -/
def jsRound (x : ℝ) : ℤ := ⌊x + 1 / 2⌋

/-- Fixed horizontal move speed (`const moveSpeed = 6`). -/
def moveSpeed : ℝ := 6

/-- Vertical jump impulse (`api.velocity.set(vel.current[0], 9, vel.current[2])`). -/
def jumpImpulse : ℝ := 9

/-- Player spawn position (`initialPosition = [0, 5, 0]`). -/
def spawnPos : Vec3 := ⟨0, 5, 0⟩

/-- Number of moving platforms built by `App` (`for (let i = 0; i < 10; i++)`). -/
def platformCount : ℕ := 10

/-- Z coordinate of the goal volume:
`-10 - platforms.length * 6 - 5`, i.e. `-75`. -/
def goalZ : ℝ := -10 - (platformCount : ℝ) * 6 - 5

/-- The shared platform-velocity table (`platformsMap : Map<number, number>`),
as a partial map from platform index to current X velocity. -/
def VelTable : Type := ℤ → Option ℝ

/-- Table write, `platformsMap.set(index, vx)`. -/
def setTable (t : VelTable) (i : ℤ) (v : ℝ) : VelTable :=
  fun j => if j = i then some v else t j

/-- The freshly constructed table (`new Map()`), which has no entries. -/
def emptyTable : VelTable := fun _ => none

/-- Table read with default, `platformsMap.get(index) || 0`: the stored
value when present (a stored 0 is returned as 0 either way), else 0. -/
def tableGet (t : VelTable) (i : ℤ) : ℝ := (t i).getD 0

/-- Ride resolver: recover a candidate platform index from the player's Z
by inverting the placement rule, `index = Math.round((pz + 10) / -6)` and
`targetZ = -10 - index * 6`, accepting only when
`index >= 0 && Math.abs(pz - targetZ) < 2.5`, all guarded by
`isGrounded && py > -0.1`.  Returns the accepted index, if any. -/
def rideIndex (grounded : Prop) (py pz : ℝ) : Option ℤ :=
  if grounded ∧ py > -0.1 then
    let index := jsRound ((pz + 10) / (-6))
    let targetZ : ℝ := -10 - (index : ℝ) * 6
    if index ≥ 0 ∧ |pz - targetZ| < 2.5 then some index else none
  else none

/-- Platform-carry term: `extraX = platformsMap.get(index) || 0` when the
resolver accepts, and `0` otherwise. -/
def rideExtraX (t : VelTable) (grounded : Prop) (py pz : ℝ) : ℝ :=
  match rideIndex grounded py pz with
  | some i => tableGet t i
  | none => 0

/-- Analog-variant horizontal velocity: with
`length = Math.sqrt(inputX*inputX + inputZ*inputZ)`,
`velX = length > 0 ? (inputX / (length > 1 ? length : 1)) * moveSpeed : 0`
and likewise for Z — the vector is normalized only when its length
exceeds 1. -/
def moveVel (inputX inputZ : ℝ) : ℝ × ℝ :=
  let length := Real.sqrt (inputX * inputX + inputZ * inputZ)
  (if length > 0 then inputX / (if length > 1 then length else 1) * moveSpeed else 0,
   if length > 0 then inputZ / (if length > 1 then length else 1) * moveSpeed else 0)

/-- Discrete-variant horizontal velocity (`App.tsx`): with the same
`length`, `directionX = length > 0 ? (dx / length) * moveSpeed : 0` —
normalized whenever the length is positive. -/
def moveVelDiscrete (dx dz : ℝ) : ℝ × ℝ :=
  let length := Real.sqrt (dx * dx + dz * dz)
  (if length > 0 then dx / length * moveSpeed else 0,
   if length > 0 then dz / length * moveSpeed else 0)

/-- Keyboard boolean flags for one frame. -/
structure Keys where
  forward : Bool
  backward : Bool
  left : Bool
  right : Bool
  jump : Bool

/-- Raw per-frame input of the analog-joystick variant: keyboard flags,
the live joystick vector, and the mobile jump button. -/
structure FrameInput where
  keys : Keys
  joyX : ℝ
  joyY : ℝ
  mobileJump : Bool

/-- Keyboard discrete axes:
`kx = (left ? -1 : 0) + (right ? 1 : 0)`,
`kz = (forward ? -1 : 0) + (backward ? 1 : 0)`. -/
def keyAxes (k : Keys) : ℝ × ℝ :=
  ((if k.left then -1 else 0) + (if k.right then 1 else 0),
   (if k.forward then -1 else 0) + (if k.backward then 1 else 0))

/-- Input aggregation of the analog variant:
`inputX = kx !== 0 ? kx : joystickVector.x` and
`inputZ = kz !== 0 ? kz : joystickVector.y`. -/
def aggInput (inp : FrameInput) : ℝ × ℝ :=
  ((if (keyAxes inp.keys).1 ≠ 0 then (keyAxes inp.keys).1 else inp.joyX),
   (if (keyAxes inp.keys).2 ≠ 0 then (keyAxes inp.keys).2 else inp.joyY))

/-- Jump intent, `keyboard.jump || mobileJump.active`. -/
def jumpIntent (inp : FrameInput) : Bool := inp.keys.jump || inp.mobileJump

/-- Player refs as read inside `useFrame`: the subscribed position and
velocity (`pos.current`, `vel.current`, updated by the physics engine
between frames) and the jump edge-detector ref. -/
structure PlayerState where
  pos : Vec3
  vel : Vec3
  wasJumpPressed : Bool

/-- Observable effects of one `useFrame` tick of `Player`.  Fields in
order: position command (`api.position.set`, if issued), the movement
velocity write (the `api.velocity.set(velX + extraX, vy, velZ)` of the
movement step, absent on reset frames), the final velocity command
after all writes of the frame, whether the jump impulse write happened,
the new value of the `wasJumpPressed` ref, and whether the camera
follow step ran (its transform math is not needed by any claim). -/
structure FrameOutput where
  posCmd : Option Vec3
  steerCmd : Option Vec3
  velCmd : Vec3
  jumpFired : Bool
  wasJumpPressed : Bool
  camUpdated : Bool

/-- One `useFrame` tick of the `Player` component (analog variant): input
aggregation, grounded heuristic `|vy| < 0.5`, reset check `py < -5`
(which returns early), ride resolution, movement write, jump
edge-detection write, edge-detector update, camera follow. -/
def frame (t : VelTable) (inp : FrameInput) (s : PlayerState) : FrameOutput :=
  let inputX := (aggInput inp).1
  let inputZ := (aggInput inp).2
  let jump := jumpIntent inp
  let isGrounded : Prop := |s.vel.y| < 0.5
  if s.pos.y < -5 then
    ⟨some spawnPos, none, ⟨0, 0, 0⟩, false, s.wasJumpPressed, false⟩
  else
    let extraX := rideExtraX t isGrounded s.pos.y s.pos.z
    let v := moveVel inputX inputZ
    let steer : Vec3 := ⟨v.1 + extraX, s.vel.y, v.2⟩
    let doJump : Prop := jump = true ∧ s.wasJumpPressed = false ∧ isGrounded
    ⟨none, some steer,
     if doJump then ⟨s.vel.x, jumpImpulse, s.vel.z⟩ else steer,
     if doJump then true else false,
     jump, true⟩

/-- Platform X position at elapsed time `u`: with `t = u + offset`,
`x = position[0] + Math.sin(t * speed) * range`. -/
def platformX (x0 offset range speed u : ℝ) : ℝ :=
  x0 + Real.sin ((u + offset) * speed) * range

/-- Platform X velocity at elapsed time `u`: with `t = u + offset`,
`vx = Math.cos(t * speed) * speed * range`. -/
def platformVX (offset range speed u : ℝ) : ℝ :=
  Real.cos ((u + offset) * speed) * speed * range

/-- One `useFrame` tick of `MovingPlatform index`: publish `vx` into the
shared table, write position `(x, y0, z0)` and velocity `(vx, 0, 0)` to
the kinematic body.  Components: updated table, position command,
velocity command. -/
def platformFrame (index : ℤ) (base : Vec3) (offset range speed : ℝ)
    (t : VelTable) (elapsed : ℝ) : VelTable × Vec3 × Vec3 :=
  (setTable t index (platformVX offset range speed elapsed),
   ⟨platformX base.x offset range speed elapsed, base.y, base.z⟩,
   ⟨platformVX offset range speed elapsed, 0, 0⟩)

/-- Invariant on the shared table: every present key is the index of one
of the `platformCount` constructed platforms. -/
def tableWF (t : VelTable) : Prop :=
  ∀ i, t i ≠ none → 0 ≤ i ∧ i < (platformCount : ℤ)

/-- Value of the `wasJumpPressed` ref before frame `n` of a run in which
frame `k` observes subscribed position `(envs k).1` and velocity
`(envs k).2` under input `inps k`. -/
def wasJumpSeq (t : VelTable) (inps : ℕ → FrameInput)
    (envs : ℕ → Vec3 × Vec3) (w0 : Bool) : ℕ → Bool
  | 0 => w0
  | n + 1 =>
      (frame t (inps n)
        ⟨(envs n).1, (envs n).2, wasJumpSeq t inps envs w0 n⟩).wasJumpPressed

/-- Whether the jump impulse fires on frame `n` of such a run. -/
def fires (t : VelTable) (inps : ℕ → FrameInput)
    (envs : ℕ → Vec3 × Vec3) (w0 : Bool) (n : ℕ) : Bool :=
  (frame t (inps n)
    ⟨(envs n).1, (envs n).2, wasJumpSeq t inps envs w0 n⟩).jumpFired

end

/-- Rounding in jsRound distributes over adding an integer. -/
theorem jsRound_int_add (n : ℤ) (r : ℝ) : jsRound ((n : ℝ) + r) = n + jsRound r := by
  unfold jsRound
  rw [add_assoc, Int.floor_int_add]

/-- Resolver evaluation at an offset `d` from platform `i`'s target Z:
when the offset keeps the rounded candidate at `i`, the resolver answers
by the `|d| < 2.5` acceptance test alone. -/
theorem rideIndex_near (grounded : Prop) (hg : grounded) (py : ℝ) (hpy : py > -0.1)
    (i : ℕ) (d : ℝ) (h0 : 0 ≤ 1 / 2 - d / 6) (h1 : 1 / 2 - d / 6 < 1) :
    rideIndex grounded py (-10 - 6 * i + d) =
      if |d| < 2.5 then some (i : ℤ) else none := by
  have hj : jsRound ((-10 - 6 * (i : ℝ) + d + 10) / (-6)) = (i : ℤ) := by
    have harg : (-10 - 6 * (i : ℝ) + d + 10) / (-6) = ((i : ℤ) : ℝ) + -(d / 6) := by
      push_cast
      ring
    rw [harg, jsRound_int_add]
    have hz : jsRound (-(d / 6)) = 0 := by
      unfold jsRound
      rw [Int.floor_eq_zero_iff]
      exact Set.mem_Ico.mpr ⟨by linarith, by linarith⟩
    rw [hz, add_zero]
  unfold rideIndex
  rw [if_pos ⟨hg, hpy⟩]
  simp only [hj]
  have habs : (-10 - 6 * (i : ℝ) + d) - (-10 - ((i : ℤ) : ℝ) * 6) = d := by
    push_cast
    ring
  rw [habs]
  by_cases hd : |d| < 2.5
  · simp [hd, Int.natCast_nonneg]
  · simp [hd]

/-- Carry term when the resolver accepts an index. -/
theorem rideExtraX_eq_some (t : VelTable) (grounded : Prop) (py pz : ℝ) (i : ℤ)
    (h : rideIndex grounded py pz = some i) :
    rideExtraX t grounded py pz = tableGet t i := by
  unfold rideExtraX
  rw [h]

/-- Carry term when the resolver accepts nothing. -/
theorem rideExtraX_eq_none (t : VelTable) (grounded : Prop) (py pz : ℝ)
    (h : rideIndex grounded py pz = none) :
    rideExtraX t grounded py pz = 0 := by
  unfold rideExtraX
  rw [h]

/-- Claim C1: on platform `i`'s exact target Z (`pz = -10 - 6*i`) the
resolver returns index `i` and that platform's stored velocity as the
carry term; at `targetZ ± 2.49` it still returns `i`; at `targetZ ± 2.51`
it returns no match and the carry term is 0 (given grounded and
`py > -0.1`). -/
theorem ride_resolver_boundary (i : ℕ) (grounded : Prop) (hg : grounded)
    (py : ℝ) (hpy : py > -0.1) (t : VelTable) (v : ℝ) (hv : t (i : ℤ) = some v) :
    rideIndex grounded py (-10 - 6 * i) = some (i : ℤ) ∧
    rideExtraX t grounded py (-10 - 6 * i) = v ∧
    rideIndex grounded py (-10 - 6 * i + 2.49) = some (i : ℤ) ∧
    rideIndex grounded py (-10 - 6 * i - 2.49) = some (i : ℤ) ∧
    rideIndex grounded py (-10 - 6 * i + 2.51) = none ∧
    rideIndex grounded py (-10 - 6 * i - 2.51) = none ∧
    rideExtraX t grounded py (-10 - 6 * i + 2.51) = 0 ∧
    rideExtraX t grounded py (-10 - 6 * i - 2.51) = 0 := by
  have e0 : -10 - 6 * (i : ℝ) = -10 - 6 * (i : ℝ) + 0 := by ring
  have em49 : -10 - 6 * (i : ℝ) - 2.49 = -10 - 6 * (i : ℝ) + (-2.49) := by ring
  have em51 : -10 - 6 * (i : ℝ) - 2.51 = -10 - 6 * (i : ℝ) + (-2.51) := by ring
  have h0 : rideIndex grounded py (-10 - 6 * i) = some (i : ℤ) := by
    rw [e0, rideIndex_near grounded hg py hpy i 0 (by norm_num) (by norm_num)]
    rw [if_pos (by rw [abs_lt]; constructor <;> norm_num)]
  have hp49 : rideIndex grounded py (-10 - 6 * i + 2.49) = some (i : ℤ) := by
    rw [rideIndex_near grounded hg py hpy i 2.49 (by norm_num) (by norm_num)]
    rw [if_pos (by rw [abs_lt]; constructor <;> norm_num)]
  have hm49 : rideIndex grounded py (-10 - 6 * i - 2.49) = some (i : ℤ) := by
    rw [em49, rideIndex_near grounded hg py hpy i (-2.49) (by norm_num) (by norm_num)]
    rw [if_pos (by rw [abs_lt]; constructor <;> norm_num)]
  have hp51 : rideIndex grounded py (-10 - 6 * i + 2.51) = none := by
    rw [rideIndex_near grounded hg py hpy i 2.51 (by norm_num) (by norm_num)]
    rw [if_neg (by rw [abs_lt]; push_neg; intro h; norm_num)]
  have hm51 : rideIndex grounded py (-10 - 6 * i - 2.51) = none := by
    rw [em51, rideIndex_near grounded hg py hpy i (-2.51) (by norm_num) (by norm_num)]
    rw [if_neg (by rw [abs_lt]; push_neg; intro h; linarith)]
  refine ⟨h0, ?_, hp49, hm49, hp51, hm51, ?_, ?_⟩
  · rw [rideExtraX_eq_some t grounded py _ _ h0]
    simp [tableGet, hv]
  · exact rideExtraX_eq_none t grounded py _ hp51
  · exact rideExtraX_eq_none t grounded py _ hm51

/-- Witness for C1: platform 0, grounded, `py = 0`, a table holding
velocity 5 at key 0. -/
theorem ride_resolver_boundary_witness :
    rideIndex True 0 (-10 - 6 * ((0 : ℕ) : ℝ)) = some ((0 : ℕ) : ℤ) ∧
    rideExtraX (setTable emptyTable 0 5) True 0 (-10 - 6 * ((0 : ℕ) : ℝ)) = 5 ∧
    rideIndex True 0 (-10 - 6 * ((0 : ℕ) : ℝ) + 2.49) = some ((0 : ℕ) : ℤ) ∧
    rideIndex True 0 (-10 - 6 * ((0 : ℕ) : ℝ) - 2.49) = some ((0 : ℕ) : ℤ) ∧
    rideIndex True 0 (-10 - 6 * ((0 : ℕ) : ℝ) + 2.51) = none ∧
    rideIndex True 0 (-10 - 6 * ((0 : ℕ) : ℝ) - 2.51) = none ∧
    rideExtraX (setTable emptyTable 0 5) True 0 (-10 - 6 * ((0 : ℕ) : ℝ) + 2.51) = 0 ∧
    rideExtraX (setTable emptyTable 0 5) True 0 (-10 - 6 * ((0 : ℕ) : ℝ) - 2.51) = 0 :=
  ride_resolver_boundary 0 True trivial 0 (by norm_num) (setTable emptyTable 0 5) 5
    (by simp [setTable, emptyTable])

/-- Claim C6: the platform-carry term is 0 unless the player is grounded
(`|vy| < 0.5`) and `py > -0.1` and the resolver accepts a candidate; on
acceptance the term is the table lookup with default 0, so a missing
entry yields 0 — the resolver is a total function into the reals. -/
theorem extraX_guard_and_default (t : VelTable) (vy py pz : ℝ) :
    (¬ (|vy| < 0.5 ∧ py > -0.1) → rideExtraX t (|vy| < 0.5) py pz = 0) ∧
    (rideIndex (|vy| < 0.5) py pz = none → rideExtraX t (|vy| < 0.5) py pz = 0) ∧
    (∀ i, rideIndex (|vy| < 0.5) py pz = some i →
      rideExtraX t (|vy| < 0.5) py pz = (t i).getD 0) ∧
    (∀ i, rideIndex (|vy| < 0.5) py pz = some i → t i = none →
      rideExtraX t (|vy| < 0.5) py pz = 0) := by
  refine ⟨?_, rideExtraX_eq_none t _ _ _, ?_, ?_⟩
  · intro h
    refine rideExtraX_eq_none t _ _ _ ?_
    unfold rideIndex
    rw [if_neg h]
  · intro i hi
    rw [rideExtraX_eq_some t _ _ _ _ hi]
    rfl
  · intro i hi hnone
    rw [rideExtraX_eq_some t _ _ _ _ hi]
    simp [tableGet, hnone]

/-- Witness for C6: airborne player (`vy = 5`) gets a zero carry term. -/
theorem extraX_guard_and_default_witness :
    rideExtraX emptyTable (|(5 : ℝ)| < 0.5) 0 0 = 0 :=
  (extraX_guard_and_default emptyTable 5 0 0).1
    (by
      intro h
      rcases h with ⟨h1, _⟩
      rw [abs_lt] at h1
      rcases h1 with ⟨_, h2⟩
      linarith)

/-- Derivative of the oscillator position in `t`: the inner phase map. -/
theorem oscillator_inner_deriv (offset speed u : ℝ) :
    HasDerivAt (fun w : ℝ => (w + offset) * speed) speed u := by
  simpa using ((hasDerivAt_id u).add_const offset).mul_const speed

/-- Claim C2: for every elapsed time, phase offset, amplitude and angular
speed, the velocity the platform publishes and writes to its body,
`cos((t + offset) * speed) * speed * range`, is the exact analytic
derivative of its position function
`x0 + sin((t + offset) * speed) * range`; moreover the table entry
written and the body velocity X both equal that derivative value. -/
theorem oscillator_deriv_consistent (x0 offset range speed u : ℝ)
    (base : Vec3) (t : VelTable) (index : ℤ) :
    HasDerivAt (platformX x0 offset range speed)
      (platformVX offset range speed u) u ∧
    (platformFrame index base offset range speed t u).1 index =
      some (platformVX offset range speed u) ∧
    ((platformFrame index base offset range speed t u).2.2).x =
      platformVX offset range speed u := by
  refine ⟨?_, ?_, rfl⟩
  · have h1 := oscillator_inner_deriv offset speed u
    have h2 : HasDerivAt (fun w : ℝ => Real.sin ((w + offset) * speed))
        (Real.cos ((u + offset) * speed) * speed) u :=
      (Real.hasDerivAt_sin ((u + offset) * speed)).comp u h1
    have h3 := (h2.mul_const range).const_add x0
    simpa [platformX, platformVX, mul_assoc] using h3
  · simp [platformFrame, setTable]

/-- Zeta-reduced evaluation of the analog movement formula. -/
theorem moveVel_eval (x z : ℝ) :
    moveVel x z =
      (if Real.sqrt (x * x + z * z) > 0
        then x / (if Real.sqrt (x * x + z * z) > 1 then Real.sqrt (x * x + z * z) else 1) *
          moveSpeed else 0,
       if Real.sqrt (x * x + z * z) > 0
        then z / (if Real.sqrt (x * x + z * z) > 1 then Real.sqrt (x * x + z * z) else 1) *
          moveSpeed else 0) := rfl

/-- Zeta-reduced evaluation of the discrete movement formula. -/
theorem moveVelDiscrete_eval (dx dz : ℝ) :
    moveVelDiscrete dx dz =
      (if Real.sqrt (dx * dx + dz * dz) > 0
        then dx / Real.sqrt (dx * dx + dz * dz) * moveSpeed else 0,
       if Real.sqrt (dx * dx + dz * dz) > 0
        then dz / Real.sqrt (dx * dx + dz * dz) * moveSpeed else 0) := rfl

/-- A vanishing input length forces both input components to vanish. -/
theorem input_zero_of_len_nonpos (x z : ℝ)
    (h : ¬ Real.sqrt (x * x + z * z) > 0) : x = 0 ∧ z = 0 := by
  have hs0 : Real.sqrt (x * x + z * z) = 0 :=
    le_antisymm (not_lt.mp h) (Real.sqrt_nonneg _)
  have hsum : x * x + z * z ≤ 0 := by
    by_contra hpos
    push_neg at hpos
    have := Real.sqrt_pos.mpr hpos
    rw [hs0] at this
    exact lt_irrefl 0 this
  have hx2 : 0 ≤ x * x := mul_self_nonneg x
  have hz2 : 0 ≤ z * z := mul_self_nonneg z
  have hx : x * x = 0 := le_antisymm (by linarith) hx2
  have hz : z * z = 0 := le_antisymm (by linarith) hz2
  exact ⟨mul_self_eq_zero.mp hx, mul_self_eq_zero.mp hz⟩

/-- Claim C3: the analog-variant movement normalizes the input vector only
when its magnitude exceeds 1 and scales by the move speed 6; the frame's
movement write adds the carry term to X only, leaving Z untouched; the
discrete diagonal intent (forward and right) aggregates to `(1, -1)` and
yields a resultant horizontal speed of exactly 6. -/
theorem movement_normalization :
    (∀ x z : ℝ, 1 < Real.sqrt (x * x + z * z) →
      moveVel x z = (x / Real.sqrt (x * x + z * z) * moveSpeed,
                     z / Real.sqrt (x * x + z * z) * moveSpeed)) ∧
    (∀ x z : ℝ, Real.sqrt (x * x + z * z) ≤ 1 →
      moveVel x z = (x * moveSpeed, z * moveSpeed)) ∧
    (∀ (t : VelTable) (inp : FrameInput) (s : PlayerState), ¬ s.pos.y < -5 →
      (frame t inp s).steerCmd =
        some ⟨(moveVel (aggInput inp).1 (aggInput inp).2).1 +
                rideExtraX t (|s.vel.y| < 0.5) s.pos.y s.pos.z,
              s.vel.y,
              (moveVel (aggInput inp).1 (aggInput inp).2).2⟩) ∧
    (∀ (jx jy : ℝ) (mj b : Bool),
      aggInput ⟨⟨true, false, false, true, b⟩, jx, jy, mj⟩ = (1, -1)) ∧
    Real.sqrt ((moveVel 1 (-1)).1 ^ 2 + (moveVel 1 (-1)).2 ^ 2) = moveSpeed := by
  have hmain : ∀ x z : ℝ, 1 < Real.sqrt (x * x + z * z) →
      moveVel x z = (x / Real.sqrt (x * x + z * z) * moveSpeed,
                     z / Real.sqrt (x * x + z * z) * moveSpeed) := by
    intro x z h1
    have h0 : Real.sqrt (x * x + z * z) > 0 := lt_trans one_pos h1
    rw [moveVel_eval, if_pos h0, if_pos h0, if_pos h1]
  have hsmall : ∀ x z : ℝ, Real.sqrt (x * x + z * z) ≤ 1 →
      moveVel x z = (x * moveSpeed, z * moveSpeed) := by
    intro x z h1
    by_cases h0 : Real.sqrt (x * x + z * z) > 0
    · have hn1 : ¬ Real.sqrt (x * x + z * z) > 1 := not_lt.mpr h1
      rw [moveVel_eval, if_pos h0, if_pos h0, if_neg hn1]
      norm_num
    · obtain ⟨hx, hz⟩ := input_zero_of_len_nonpos x z h0
      subst hx
      subst hz
      rw [moveVel_eval]
      norm_num
  refine ⟨hmain, hsmall, ?_, ?_, ?_⟩
  · intro t inp s hr
    simp only [frame]
    rw [if_neg hr]
  · intro jx jy mj b
    norm_num [aggInput, keyAxes]
  · have harg : (1 : ℝ) * 1 + (-1) * (-1) = 2 := by norm_num
    have h2 : (1 : ℝ) < Real.sqrt 2 := (Real.lt_sqrt (by norm_num)).mpr (by norm_num)
    have h1' : 1 < Real.sqrt ((1 : ℝ) * 1 + (-1) * (-1)) := by rw [harg]; exact h2
    rw [hmain 1 (-1) h1', harg]
    have hsne : Real.sqrt 2 ≠ 0 := ne_of_gt (lt_trans one_pos h2)
    have hs2 : Real.sqrt 2 ^ 2 = 2 := Real.sq_sqrt (by norm_num)
    have hsum : (1 / Real.sqrt 2 * moveSpeed) ^ 2 +
        ((-1) / Real.sqrt 2 * moveSpeed) ^ 2 = 36 := by
      field_simp [moveSpeed]
      nlinarith [hs2]
    rw [hsum, show (36 : ℝ) = 6 ^ 2 by norm_num, Real.sqrt_sq (by norm_num)]
    norm_num [moveSpeed]

/-- Witness for C3: a short analog push `(1/2, 0)` is scaled without
normalization, and a non-reset frame's movement write has the stated
shape. -/
theorem movement_normalization_witness :
    moveVel (1 / 2) 0 = (1 / 2 * moveSpeed, 0 * moveSpeed) ∧
    (frame emptyTable ⟨⟨false, false, false, false, false⟩, 0, 0, false⟩
        ⟨⟨0, 0, 0⟩, ⟨0, 0, 0⟩, false⟩).steerCmd =
      some ⟨(moveVel (aggInput ⟨⟨false, false, false, false, false⟩, 0, 0, false⟩).1
                (aggInput ⟨⟨false, false, false, false, false⟩, 0, 0, false⟩).2).1 +
              rideExtraX emptyTable (|(0 : ℝ)| < 0.5) 0 0,
            0,
            (moveVel (aggInput ⟨⟨false, false, false, false, false⟩, 0, 0, false⟩).1
                (aggInput ⟨⟨false, false, false, false, false⟩, 0, 0, false⟩).2).2⟩ :=
  ⟨movement_normalization.2.1 (1 / 2) 0
      (le_trans (Real.sqrt_le_sqrt (by norm_num)) (le_of_eq Real.sqrt_one)),
   movement_normalization.2.2.1 emptyTable
      ⟨⟨false, false, false, false, false⟩, 0, 0, false⟩
      ⟨⟨0, 0, 0⟩, ⟨0, 0, 0⟩, false⟩ (by norm_num)⟩

/-- Claim C8: on purely discrete inputs (each component in `{-1, 0, 1}`),
the discrete-button variant's velocity computation (normalize whenever
the length is positive) and the analog variant's (normalize only when
the length exceeds 1) agree. -/
theorem discrete_analog_movement_agree (dx dz : ℝ)
    (hx : dx = -1 ∨ dx = 0 ∨ dx = 1) (hz : dz = -1 ∨ dz = 0 ∨ dz = 1) :
    moveVelDiscrete dx dz = moveVel dx dz := by
  have h2 : (1 : ℝ) < Real.sqrt 2 := (Real.lt_sqrt (by norm_num)).mpr (by norm_num)
  have h2' : (0 : ℝ) < Real.sqrt 2 := lt_trans one_pos h2
  rcases hx with rfl | rfl | rfl <;> rcases hz with rfl | rfl | rfl <;>
    rw [moveVelDiscrete_eval, moveVel_eval] <;>
    norm_num [Real.sqrt_one, Real.sqrt_zero, h2, h2']

/-- Witness for C8 on the diagonal input `(1, -1)`. -/
theorem discrete_analog_movement_agree_witness :
    moveVelDiscrete 1 (-1) = moveVel 1 (-1) :=
  discrete_analog_movement_agree 1 (-1) (Or.inr (Or.inr rfl)) (Or.inl rfl)

/-- Guarded evaluation of the resolver when the grounded band holds. -/
theorem rideIndex_eval (grounded : Prop) (hg : grounded) (py pz : ℝ) (hpy : py > -0.1) :
    rideIndex grounded py pz =
      if jsRound ((pz + 10) / (-6)) ≥ 0 ∧
          |pz - (-10 - (jsRound ((pz + 10) / (-6)) : ℝ) * 6)| < 2.5
        then some (jsRound ((pz + 10) / (-6))) else none := by
  unfold rideIndex
  rw [if_pos ⟨hg, hpy⟩]

/-- Evaluation of a reset frame (`py < -5`). -/
theorem frame_eval_reset (t : VelTable) (inp : FrameInput) (s : PlayerState)
    (h : s.pos.y < -5) :
    frame t inp s = ⟨some spawnPos, none, ⟨0, 0, 0⟩, false, s.wasJumpPressed, false⟩ := by
  simp only [frame]
  rw [if_pos h]

/-- Evaluation of a non-reset frame. -/
theorem frame_eval_nonreset (t : VelTable) (inp : FrameInput) (s : PlayerState)
    (h : ¬ s.pos.y < -5) :
    frame t inp s =
      ⟨none,
       some ⟨(moveVel (aggInput inp).1 (aggInput inp).2).1 +
               rideExtraX t (|s.vel.y| < 0.5) s.pos.y s.pos.z, s.vel.y,
             (moveVel (aggInput inp).1 (aggInput inp).2).2⟩,
       if jumpIntent inp = true ∧ s.wasJumpPressed = false ∧ |s.vel.y| < 0.5
         then ⟨s.vel.x, jumpImpulse, s.vel.z⟩
         else ⟨(moveVel (aggInput inp).1 (aggInput inp).2).1 +
                 rideExtraX t (|s.vel.y| < 0.5) s.pos.y s.pos.z, s.vel.y,
               (moveVel (aggInput inp).1 (aggInput inp).2).2⟩,
       if jumpIntent inp = true ∧ s.wasJumpPressed = false ∧ |s.vel.y| < 0.5
         then true else false,
       jumpIntent inp, true⟩ := by
  simp only [frame]
  rw [if_neg h]

/-- Edge-detector ref after a non-reset frame. -/
theorem frame_wasJump_nonreset (t : VelTable) (inp : FrameInput) (s : PlayerState)
    (h : ¬ s.pos.y < -5) :
    (frame t inp s).wasJumpPressed = jumpIntent inp := by
  rw [frame_eval_nonreset t inp s h]

/-- Jump firing condition of a grounded, non-reset frame as a Boolean. -/
theorem frame_jumpFired_eq (t : VelTable) (inp : FrameInput) (s : PlayerState)
    (h : ¬ s.pos.y < -5) (hg : |s.vel.y| < 0.5) :
    (frame t inp s).jumpFired = (jumpIntent inp && !s.wasJumpPressed) := by
  rw [frame_eval_nonreset t inp s h]
  cases hj : jumpIntent inp <;> cases hw : s.wasJumpPressed <;> simp [hj, hw, hg]

/-- Claim C5: a frame with `py < -5` sets the position to the spawn and
the velocity to zero and skips everything else that frame (no movement
write, no jump, the edge detector keeps its old value, no camera
update); a frame with `py >= -5` issues no position command and does run
the rest. -/
theorem reset_frame_behavior (t : VelTable) (inp : FrameInput) (s : PlayerState) :
    (s.pos.y < -5 →
      frame t inp s = ⟨some spawnPos, none, ⟨0, 0, 0⟩, false, s.wasJumpPressed, false⟩) ∧
    (¬ s.pos.y < -5 →
      (frame t inp s).posCmd = none ∧ (frame t inp s).steerCmd ≠ none ∧
      (frame t inp s).camUpdated = true ∧
      (frame t inp s).wasJumpPressed = jumpIntent inp) := by
  constructor
  · intro h
    exact frame_eval_reset t inp s h
  · intro h
    rw [frame_eval_nonreset t inp s h]
    exact ⟨rfl, by simp, rfl, rfl⟩

/-- Witness for C5: a fallen player (`py = -6`) is reset. -/
theorem reset_frame_behavior_witness :
    frame emptyTable ⟨⟨false, false, false, false, false⟩, 0, 0, false⟩
        ⟨⟨0, -6, 0⟩, ⟨0, 0, 0⟩, true⟩ =
      ⟨some spawnPos, none, ⟨0, 0, 0⟩, false, true, false⟩ :=
  (reset_frame_behavior emptyTable ⟨⟨false, false, false, false, false⟩, 0, 0, false⟩
      ⟨⟨0, -6, 0⟩, ⟨0, 0, 0⟩, true⟩).1 (by norm_num)

/-- Claim C9: when the jump impulse fires, the frame's final velocity
command carries the previous frame's subscribed horizontal velocity
(`vel.current[0]`, `vel.current[2]`) with vertical 9 — not the steering
command written earlier the same frame, whose vertical component
(`s.vel.y`, bounded by the grounded check) it also provably differs
from. -/
theorem jump_overwrites_steering (t : VelTable) (inp : FrameInput) (s : PlayerState)
    (hnr : ¬ s.pos.y < -5) (hj : jumpIntent inp = true)
    (hw : s.wasJumpPressed = false) (hg : |s.vel.y| < 0.5) :
    (frame t inp s).velCmd = ⟨s.vel.x, jumpImpulse, s.vel.z⟩ ∧
    (frame t inp s).steerCmd =
      some ⟨(moveVel (aggInput inp).1 (aggInput inp).2).1 +
              rideExtraX t (|s.vel.y| < 0.5) s.pos.y s.pos.z, s.vel.y,
            (moveVel (aggInput inp).1 (aggInput inp).2).2⟩ ∧
    (frame t inp s).velCmd.y ≠ s.vel.y := by
  rw [frame_eval_nonreset t inp s hnr]
  refine ⟨?_, rfl, ?_⟩
  · rw [if_pos ⟨hj, hw, hg⟩]
  · rw [if_pos ⟨hj, hw, hg⟩]
    show jumpImpulse ≠ s.vel.y
    intro hEq
    rcases abs_lt.mp hg with ⟨_, h2⟩
    rw [← hEq] at h2
    unfold jumpImpulse at h2
    norm_num at h2

/-- Witness for C9: a grounded rising-edge jump frame with subscribed
velocity `(1, 0, 2)`. -/
theorem jump_overwrites_steering_witness :
    (frame emptyTable ⟨⟨false, false, false, false, true⟩, 0, 0, false⟩
        ⟨⟨0, 0, 0⟩, ⟨1, 0, 2⟩, false⟩).velCmd = ⟨1, jumpImpulse, 2⟩ :=
  (jump_overwrites_steering emptyTable ⟨⟨false, false, false, false, true⟩, 0, 0, false⟩
      ⟨⟨0, 0, 0⟩, ⟨1, 0, 2⟩, false⟩ (by norm_num) rfl rfl (by norm_num)).1

/-- Claim C4: across grounded, non-reset frames, the impulse fires exactly
on rising edges of the jump intent: it equals `intent && not previous`,
it fires on the first frame of a press, never while the previous frame's
intent was pressed, and fires again after a one-frame release; a firing
frame commands vertical velocity 9. -/
theorem jump_edge_detection (t : VelTable) (inps : ℕ → FrameInput)
    (envs : ℕ → Vec3 × Vec3) (w0 : Bool)
    (hg : ∀ n, |((envs n).2).y| < 0.5) (hnr : ∀ n, ¬ ((envs n).1).y < -5) :
    (∀ n, wasJumpSeq t inps envs w0 (n + 1) = jumpIntent (inps n)) ∧
    (∀ n, fires t inps envs w0 n
        = (jumpIntent (inps n) && !(wasJumpSeq t inps envs w0 n))) ∧
    (w0 = false → jumpIntent (inps 0) = true → fires t inps envs w0 0 = true) ∧
    (∀ n, wasJumpSeq t inps envs w0 n = true → fires t inps envs w0 n = false) ∧
    (∀ n, jumpIntent (inps n) = true → fires t inps envs w0 (n + 1) = false) ∧
    (∀ n, jumpIntent (inps n) = false → jumpIntent (inps (n + 1)) = true →
        fires t inps envs w0 (n + 1) = true) ∧
    (∀ n, fires t inps envs w0 n = true →
        (frame t (inps n)
          ⟨(envs n).1, (envs n).2, wasJumpSeq t inps envs w0 n⟩).velCmd.y = jumpImpulse) := by
  have hwstep : ∀ n, wasJumpSeq t inps envs w0 (n + 1) = jumpIntent (inps n) := by
    intro n
    exact frame_wasJump_nonreset t (inps n)
      ⟨(envs n).1, (envs n).2, wasJumpSeq t inps envs w0 n⟩ (hnr n)
  have hfires : ∀ n, fires t inps envs w0 n
      = (jumpIntent (inps n) && !(wasJumpSeq t inps envs w0 n)) := by
    intro n
    exact frame_jumpFired_eq t (inps n)
      ⟨(envs n).1, (envs n).2, wasJumpSeq t inps envs w0 n⟩ (hnr n) (hg n)
  refine ⟨hwstep, hfires, ?_, ?_, ?_, ?_, ?_⟩
  · intro hw0 hj0
    have h0 : wasJumpSeq t inps envs w0 0 = w0 := rfl
    rw [hfires 0, h0, hw0, hj0]
    rfl
  · intro n hw
    rw [hfires n, hw]
    simp
  · intro n hjn
    rw [hfires (n + 1), hwstep n, hjn]
    simp
  · intro n hjn hjn1
    rw [hfires (n + 1), hwstep n, hjn, hjn1]
    rfl
  · intro n hf
    rw [hfires n] at hf
    obtain ⟨hj, hnw⟩ := Bool.and_eq_true_iff.mp hf
    have hwn : wasJumpSeq t inps envs w0 n = false := by
      cases hwi : wasJumpSeq t inps envs w0 n
      · rfl
      · rw [hwi] at hnw
        simp at hnw
    rw [frame_eval_nonreset t (inps n)
      ⟨(envs n).1, (envs n).2, wasJumpSeq t inps envs w0 n⟩ (hnr n)]
    rw [if_pos ⟨hj, hwn, hg n⟩]

/-- Witness for C4: jump held from frame 0 with the edge detector clear
fires the impulse on frame 0. -/
theorem jump_edge_detection_witness :
    fires emptyTable (fun _ => ⟨⟨false, false, false, false, true⟩, 0, 0, false⟩)
      (fun _ => (⟨0, 0, 0⟩, ⟨0, 0, 0⟩)) false 0 = true :=
  (jump_edge_detection emptyTable
      (fun _ => ⟨⟨false, false, false, false, true⟩, 0, 0, false⟩)
      (fun _ => (⟨0, 0, 0⟩, ⟨0, 0, 0⟩)) false
      (fun _ => by norm_num) (fun _ => by norm_num)).2.2.1 rfl rfl

/-- Counterexample to C7 as stated: keyboard intent `(0, -1)` (forward
only) is nonzero, yet with the joystick at `(1/2, 0)` the aggregated
intent is `(1/2, -1)`, which is not the keyboard vector — the X axis
fell through to the joystick. -/
theorem keyboard_priority_vector_cex :
    keyAxes ⟨true, false, false, false, false⟩ ≠ (0, 0) ∧
    aggInput ⟨⟨true, false, false, false, false⟩, 1 / 2, 0, false⟩ = (1 / 2, -1) ∧
    aggInput ⟨⟨true, false, false, false, false⟩, 1 / 2, 0, false⟩ ≠
      keyAxes ⟨true, false, false, false, false⟩ := by
  refine ⟨?_, ?_, ?_⟩ <;> norm_num [keyAxes, aggInput, Prod.ext_iff]

/-- Claim C7 (amended): keyboard priority over the joystick holds per
axis — each axis uses its keyboard component when that component is
nonzero, and the live joystick value otherwise; in particular a fully
zero keyboard vector yields the joystick vector. -/
theorem keyboard_priority_per_axis (inp : FrameInput) :
    ((keyAxes inp.keys).1 ≠ 0 → (aggInput inp).1 = (keyAxes inp.keys).1) ∧
    ((keyAxes inp.keys).1 = 0 → (aggInput inp).1 = inp.joyX) ∧
    ((keyAxes inp.keys).2 ≠ 0 → (aggInput inp).2 = (keyAxes inp.keys).2) ∧
    ((keyAxes inp.keys).2 = 0 → (aggInput inp).2 = inp.joyY) ∧
    (keyAxes inp.keys = (0, 0) → aggInput inp = (inp.joyX, inp.joyY)) := by
  refine ⟨?_, ?_, ?_, ?_, ?_⟩
  · intro h
    simp [aggInput, h]
  · intro h
    simp [aggInput, h]
  · intro h
    simp [aggInput, h]
  · intro h
    simp [aggInput, h]
  · intro h
    have h1 : (keyAxes inp.keys).1 = 0 := (Prod.ext_iff.mp h).1
    have h2 : (keyAxes inp.keys).2 = 0 := (Prod.ext_iff.mp h).2
    simp [aggInput, h1, h2]

/-- Witness for C7 (amended): right arrow pressed, joystick `(1/2, 1/3)` —
X takes the keyboard, Z falls through to the joystick. -/
theorem keyboard_priority_per_axis_witness :
    (aggInput ⟨⟨false, false, false, true, false⟩, 1 / 2, 1 / 3, false⟩).1 =
      (keyAxes ⟨false, false, false, true, false⟩).1 ∧
    (aggInput ⟨⟨false, false, false, true, false⟩, 1 / 2, 1 / 3, false⟩).2 = 1 / 3 :=
  ⟨(keyboard_priority_per_axis ⟨⟨false, false, false, true, false⟩, 1 / 2, 1 / 3, false⟩).1
      (by norm_num [keyAxes]),
   (keyboard_priority_per_axis ⟨⟨false, false, false, true, false⟩, 1 / 2, 1 / 3, false⟩).2.2.2.1
      (by norm_num [keyAxes])⟩

/-- Claim C10: the shared table only ever holds keys `0..9` (empty at
construction, preserved by every platform write, including a full
platform tick), so any accepted resolver index at or beyond 10 — such
as index 11, accepted while standing at the goal Z of -75 — misses the
table and the carry term defaults to 0. -/
theorem table_keys_bounded :
    tableWF emptyTable ∧
    (∀ (t : VelTable) (i : ℤ) (v : ℝ), tableWF t → 0 ≤ i → i < (platformCount : ℤ) →
      tableWF (setTable t i v)) ∧
    (∀ (base : Vec3) (offset range speed elapsed : ℝ) (t : VelTable) (i : ℤ),
      tableWF t → 0 ≤ i → i < (platformCount : ℤ) →
      tableWF (platformFrame i base offset range speed t elapsed).1) ∧
    (∀ (t : VelTable) (grounded : Prop) (py pz : ℝ) (i : ℤ),
      tableWF t → rideIndex grounded py pz = some i → (platformCount : ℤ) ≤ i →
      rideExtraX t grounded py pz = 0) ∧
    rideIndex True 0 goalZ = some 11 := by
  have hset : ∀ (t : VelTable) (i : ℤ) (v : ℝ), tableWF t → 0 ≤ i →
      i < (platformCount : ℤ) → tableWF (setTable t i v) := by
    intro t i v hwf h0 h10 j hj
    unfold setTable at hj
    by_cases hji : j = i
    · subst hji
      exact ⟨h0, h10⟩
    · rw [if_neg hji] at hj
      exact hwf j hj
  refine ⟨?_, hset, ?_, ?_, ?_⟩
  · intro i hi
    exact absurd rfl hi
  · intro base offset range speed elapsed t i hwf h0 h10
    exact hset t i (platformVX offset range speed elapsed) hwf h0 h10
  · intro t grounded py pz i hwf hacc hge
    rw [rideExtraX_eq_some t grounded py pz i hacc]
    unfold tableGet
    by_cases hnone : t i = none
    · rw [hnone]
      rfl
    · exact absurd (hwf i hnone).2 (not_lt.mpr hge)
  · have hg : goalZ = -75 := by norm_num [goalZ, platformCount]
    rw [hg, rideIndex_eval True trivial 0 (-75) (by norm_num)]
    have hj : jsRound (((-75 : ℝ) + 10) / (-6)) = 11 := by
      unfold jsRound
      rw [Int.floor_eq_iff]
      constructor <;> norm_num
    rw [hj]
    rw [if_pos ⟨by norm_num, by rw [abs_lt]; constructor <;> push_cast <;> norm_num⟩]

/-- Witness for C10: the goal-position lookup against the fresh table
yields a zero carry term. -/
theorem table_keys_bounded_witness :
    rideExtraX emptyTable True 0 goalZ = 0 :=
  table_keys_bounded.2.2.2.1 emptyTable True 0 goalZ 11
    table_keys_bounded.1 table_keys_bounded.2.2.2.2 (by norm_num [platformCount])

end My3dGame
